import Mathlib

/-!
Verification of the AST → IR lowering engine of a small C-like-language
compiler (frontend modules `expr.rs`, `stmt.rs`, `ir.rs`, `error.rs`,
`ast.rs`).

The embedding mirrors the source closely:
* IR values are identified by their position in a data-flow-graph list
  (`dfg`); `new_value` appends a `VKind` and returns the fresh id, the
  same append-only, reference-identity discipline as the `koopa` DFG.
* Basic blocks are lists of value ids, identified by position in the
  function's block list; `add_bb` appends a fresh empty block.
* `GenerateContext` state is split into the IR part (`IrState`: dfg,
  blocks, current `bb`) and the symbol table.  Expression lowering in
  `expr.rs` only ever reads `context.symbol`, so the expression-level
  functions receive the symbol table as a read-only argument and thread
  only `IrState`; statement lowering threads the full state.
* Errors mirror `CompileError(String)` and `PushKeyError`; the monads
  return the mutated state alongside the error, matching `&mut` Rust
  semantics where mutations persist when an error propagates.
* The constant evaluator (`consteval.rs`) and the symbol table
  (`symbol.rs`) are not part of the provided sources; they are modelled
  from the specification and marked as such below.
* Machine integers (`i32`) are modelled as `Int`; no claim here depends
  on overflow behaviour.
-/

deriving instance DecidableEq for Except

namespace Compiler

/-- Binary operator tags of the IR, the subset of `koopa::ir::BinaryOp`
used by `expr.rs`. -/
inductive BinOp where
  | eq | notEq | lt | le | gt | ge | add | sub | mul | div | mod
deriving DecidableEq

/-- Kinds of IR values created by the frontend: integer constants, stack
allocations, loads, stores, binary operations, conditional branches,
unconditional jumps and returns.  Operands and block targets are ids
(positions in the `dfg` and block lists). -/
inductive VKind where
  | integer (n : Int)
  | alloc
  | load (src : Nat)
  | store (val : Nat) (dest : Nat)
  | binary (op : BinOp) (lhs : Nat) (rhs : Nat)
  | branch (cond : Nat) (tbb : Nat) (fbb : Nat)
  | jump (target : Nat)
  | ret (val : Option Nat)
deriving DecidableEq

/-- IR part of `GenerateContext`: the function's data-flow graph (value
id ↦ kind, by position), the ordered basic-block list (each a list of
instruction ids) and the optional current basic block `bb`. -/
structure IrState where
  dfg : List VKind
  blocks : List (List Nat)
  bb : Option Nat
deriving DecidableEq

/-- Errors of the lowering engine: `compileError` mirrors
`CompileError(String)` of `error.rs`, `pushKeyError` mirrors
`PushKeyError` (duplicate key pushed into an append-only key list). -/
inductive Err where
  | compileError (msg : String)
  | pushKeyError (key : Nat)
deriving DecidableEq

/-- Expression-lowering monad: mutates the IR state, may fail; the
mutated state is returned also on failure (Rust `&mut` semantics). -/
def EM (α : Type) : Type := IrState → Except Err α × IrState

/-- Monadic return for `EM`. -/
def EM.pure {α : Type} (a : α) : EM α := fun s => (Except.ok a, s)

/-- Monadic bind for `EM`: on error the error and the state reached so
far propagate, mirroring the `?` operator. -/
def EM.bind {α β : Type} (x : EM α) (f : α → EM β) : EM β := fun s =>
  match x s with
  | (Except.ok a, s1) => f a s1
  | (Except.error e, s1) => (Except.error e, s1)

instance : Monad EM where
  pure := EM.pure
  bind := EM.bind

/-- Model of `context.dfg().new_value().…`: appends a value definition
to the DFG and returns its fresh id. -/
def new_value (k : VKind) : EM Nat := fun s =>
  (Except.ok s.dfg.length, { s with dfg := s.dfg ++ [k] })

/-- Model of `GenerateContext::add_bb`: appends a fresh empty basic
block to the function and returns its handle.  Ids are drawn from the
monotonically growing block list, so the `push_key_back` duplicate-key
failure of the source cannot trigger. -/
def add_bb : EM Nat := fun s =>
  (Except.ok s.blocks.length, { s with blocks := s.blocks ++ [[]] })

/-- Model of `GenerateContext::add_inst` (ir.rs:110-118): if a current
block is open, push the value onto its instruction list
(`push_key_back` fails on a duplicate key); if no block is open, the
instruction is silently dropped and the call succeeds. -/
def add_inst (v : Nat) : EM Unit := fun s =>
  match s.bb with
  | none => (Except.ok (), s)
  | some b =>
    let insts := s.blocks.getD b []
    if v ∈ insts then (Except.error (Err.pushKeyError v), s)
    else (Except.ok (), { s with blocks := s.blocks.set b (insts ++ [v]) })

/-- Model of `GenerateContext::switch_bb` (ir.rs:120-124): emit the
final instruction into the current block, then make `newBb` current;
on emission failure the error propagates before `bb` is updated. -/
def switch_bb (finalInst : Nat) (newBb : Option Nat) : EM Unit := fun s =>
  match add_inst finalInst s with
  | (Except.ok _, s1) => (Except.ok (), { s1 with bb := newBb })
  | (Except.error e, s1) => (Except.error e, s1)

/-- Symbols bound to identifiers: a fully known compile-time integer or
a reference to an allocated stack slot, as in `symbol.rs` usage from
`expr.rs`/`stmt.rs` (the `Func` variant is not consulted by the lowered
statement forms and is omitted). -/
inductive Symbol where
  | const (value : Int)
  | var (alloc : Nat)
deriving DecidableEq

/-- One lexical scope: bindings of names to symbols, newest first. -/
abbrev Scope := List (String × Symbol)

/-- Modelled from the spec: lookup of a name inside one scope (the
symbol table `symbol.rs` is not among the provided sources). -/
def scopeFind (sc : Scope) (name : String) : Option Symbol :=
  match sc with
  | [] => none
  | (m, sym) :: rest => if m = name then some sym else scopeFind rest name

/-- Modelled from the spec: the symbol table is a stack of scopes,
innermost first. -/
structure SymbolTable where
  scopes : List Scope
deriving DecidableEq

/-- Modelled from the spec: lookup walks from the innermost scope
outwards and returns the first match (shadowing). -/
def findInScopes (scopes : List Scope) (name : String) : Option Symbol :=
  match scopes with
  | [] => none
  | sc :: rest =>
    match scopeFind sc name with
    | some sym => some sym
    | none => findInScopes rest name

/-- Model of `context.symbol.get(ident)`. -/
def SymbolTable.get (t : SymbolTable) (name : String) : Option Symbol :=
  findInScopes t.scopes name

/-- Modelled from the spec: insertion binds the name in the innermost
scope and fails (returning `false`, table unchanged) if that scope
already binds the name. -/
def SymbolTable.insert (t : SymbolTable) (name : String) (sym : Symbol) :
    Bool × SymbolTable :=
  match t.scopes with
  | [] => (false, t)
  | sc :: rest =>
    if (scopeFind sc name).isSome then (false, t)
    else (true, ⟨((name, sym) :: sc) :: rest⟩)

/-- Modelled from the spec: push a fresh innermost scope. -/
def SymbolTable.push (t : SymbolTable) : SymbolTable := ⟨[] :: t.scopes⟩

/-- Modelled from the spec: pop the innermost scope. -/
def SymbolTable.pop (t : SymbolTable) : SymbolTable := ⟨t.scopes.tail⟩

/-! ## Expression AST (ast.rs), stratified by precedence level -/

/-- Equality operators (`==`, `!=`). -/
inductive EqOp where
  | equal | notEqual
deriving DecidableEq

/-- Relational operators (`<`, `<=`, `>`, `>=`). -/
inductive RelOp where
  | less | lessEqual | greater | greaterEqual
deriving DecidableEq

/-- Additive operators (`+`, `-`). -/
inductive AddOp where
  | plus | minus
deriving DecidableEq

/-- Multiplicative operators (`*`, `/`, `%`). -/
inductive MulOp where
  | multiply | divide | modulo
deriving DecidableEq

/-- Unary operators (`+`, `-`, `!`). -/
inductive UnaryOp where
  | positive | negative | not
deriving DecidableEq

/-- Left values: identifiers. -/
inductive LVal where
  | ident (name : String)
deriving DecidableEq

mutual
/-- Logical-or level expressions. -/
inductive LOrExp where
  | and (e : LAndExp)
  | or (l : LOrExp) (r : LAndExp)

/-- Logical-and level expressions. -/
inductive LAndExp where
  | eq (e : EqExp)
  | and (l : LAndExp) (r : EqExp)

/-- Equality level expressions. -/
inductive EqExp where
  | rel (e : RelExp)
  | eq (l : EqExp) (op : EqOp) (r : RelExp)

/-- Relational level expressions. -/
inductive RelExp where
  | add (e : AddExp)
  | rel (l : RelExp) (op : RelOp) (r : AddExp)

/-- Additive level expressions. -/
inductive AddExp where
  | mul (e : MulExp)
  | add (l : AddExp) (op : AddOp) (r : MulExp)

/-- Multiplicative level expressions. -/
inductive MulExp where
  | unary (e : UnaryExp)
  | mul (l : MulExp) (op : MulOp) (r : UnaryExp)

/-- Unary level expressions.  The source's statement and expression
lowering handle only the `Primary` and `Op` forms; the `Call` variant
of `ast.rs` has no lowering arm in `expr.rs` and is not modelled. -/
inductive UnaryExp where
  | primary (e : PrimaryExp)
  | op (op : UnaryOp) (e : UnaryExp)

/-- Primary expressions: number literals, left values, parentheses. -/
inductive PrimaryExp where
  | num (n : Int)
  | lval (l : LVal)
  | paren (e : LOrExp)
end

/-! ## Constant evaluator

Modelled from the spec: `consteval.rs` is not among the provided
sources.  The evaluator attempts to fully evaluate an expression at
compile time; it may consult already-bound `Const` symbols, and fails
on runtime variables.  Boolean-valued operators normalize to 0/1;
division and modulo by zero are not constant-evaluable. -/

mutual
/-- Modelled from the spec: compile-time evaluation, logical-or level. -/
def evalLOr (e : LOrExp) (t : SymbolTable) : Option Int :=
  match e with
  | LOrExp.and e => evalLAnd e t
  | LOrExp.or l r =>
    match evalLOr l t, evalLAnd r t with
    | some a, some b => some (if a ≠ 0 ∨ b ≠ 0 then 1 else 0)
    | _, _ => none

/-- Modelled from the spec: compile-time evaluation, logical-and level. -/
def evalLAnd (e : LAndExp) (t : SymbolTable) : Option Int :=
  match e with
  | LAndExp.eq e => evalEq e t
  | LAndExp.and l r =>
    match evalLAnd l t, evalEq r t with
    | some a, some b => some (if a ≠ 0 ∧ b ≠ 0 then 1 else 0)
    | _, _ => none

/-- Modelled from the spec: compile-time evaluation, equality level. -/
def evalEq (e : EqExp) (t : SymbolTable) : Option Int :=
  match e with
  | EqExp.rel e => evalRel e t
  | EqExp.eq l op r =>
    match evalEq l t, evalRel r t with
    | some a, some b =>
      match op with
      | EqOp.equal => some (if a = b then 1 else 0)
      | EqOp.notEqual => some (if a ≠ b then 1 else 0)
    | _, _ => none

/-- Modelled from the spec: compile-time evaluation, relational level. -/
def evalRel (e : RelExp) (t : SymbolTable) : Option Int :=
  match e with
  | RelExp.add e => evalAdd e t
  | RelExp.rel l op r =>
    match evalRel l t, evalAdd r t with
    | some a, some b =>
      match op with
      | RelOp.less => some (if a < b then 1 else 0)
      | RelOp.lessEqual => some (if a ≤ b then 1 else 0)
      | RelOp.greater => some (if b < a then 1 else 0)
      | RelOp.greaterEqual => some (if b ≤ a then 1 else 0)
    | _, _ => none

/-- Modelled from the spec: compile-time evaluation, additive level. -/
def evalAdd (e : AddExp) (t : SymbolTable) : Option Int :=
  match e with
  | AddExp.mul e => evalMul e t
  | AddExp.add l op r =>
    match evalAdd l t, evalMul r t with
    | some a, some b =>
      match op with
      | AddOp.plus => some (a + b)
      | AddOp.minus => some (a - b)
    | _, _ => none

/-- Modelled from the spec: compile-time evaluation, multiplicative
level; division truncates toward zero as in the source language. -/
def evalMul (e : MulExp) (t : SymbolTable) : Option Int :=
  match e with
  | MulExp.unary e => evalUnary e t
  | MulExp.mul l op r =>
    match evalMul l t, evalUnary r t with
    | some a, some b =>
      match op with
      | MulOp.multiply => some (a * b)
      | MulOp.divide => if b = 0 then none else some (Int.tdiv a b)
      | MulOp.modulo => if b = 0 then none else some (Int.tmod a b)
    | _, _ => none

/-- Modelled from the spec: compile-time evaluation, unary level. -/
def evalUnary (e : UnaryExp) (t : SymbolTable) : Option Int :=
  match e with
  | UnaryExp.primary e => evalPrimary e t
  | UnaryExp.op op e =>
    match evalUnary e t with
    | some a =>
      match op with
      | UnaryOp.positive => some a
      | UnaryOp.negative => some (-a)
      | UnaryOp.not => some (if a = 0 then 1 else 0)
    | none => none

/-- Modelled from the spec: compile-time evaluation, primary level; an
identifier evaluates only if it is bound to a `Const` symbol. -/
def evalPrimary (e : PrimaryExp) (t : SymbolTable) : Option Int :=
  match e with
  | PrimaryExp.num n => some n
  | PrimaryExp.paren e => evalLOr e t
  | PrimaryExp.lval l =>
    match l with
    | LVal.ident name =>
      match t.get name with
      | some (Symbol.const v) => some v
      | _ => none
end

/-! ## Expression lowering (expr.rs) -/

/-- Model of `expr::generate`'s two-tier shape (expr.rs:17-28): if the
constant evaluator succeeded (`ev`), materialize the result as an
integer immediate with no runtime instructions; otherwise run the
runtime lowering `gv`. -/
def generate_folded (ev : Option Int) (gv : EM Nat) : EM Nat :=
  match ev with
  | some v => new_value (VKind.integer v)
  | none => gv

/-- Model of `LVal::generate_value` (expr.rs:231-250): a `Const` symbol
yields an integer immediate, a `Var` symbol emits a load from its slot,
lookup failure is an undefined-variable error. -/
def generate_value_lval (t : SymbolTable) (l : LVal) : EM Nat :=
  match l with
  | LVal.ident name => fun s =>
    match t.get name with
    | none =>
      (Except.error (Err.compileError ("Undefined variable: " ++ name)), s)
    | some (Symbol.const v) => new_value (VKind.integer v) s
    | some (Symbol.var alloc) =>
      (do
        let load ← new_value (VKind.load alloc)
        add_inst load
        pure load) s

/-- The two short-circuiting operators of `expr.rs`. -/
inductive ShortCircuitingOp where
  | or
  | and
deriving DecidableEq

/-- Model of `generate_with_short_circuiting` (expr.rs:39-90), with the
left and right operands' `generate_value` computations passed in as the
source passes the operand expressions.  The order of value creation,
operand lowering and instruction emission is exactly the source's. -/
def generate_with_short_circuiting (op : ShortCircuitingOp)
    (lhsGen : EM Nat) (rhsGen : EM Nat) : EM Nat := do
  let zero ← new_value (VKind.integer 0)
  let one ← new_value (VKind.integer 1)
  let result ← new_value VKind.alloc
  let initValue :=
    match op with
    | ShortCircuitingOp.or => one
    | ShortCircuitingOp.and => zero
  let init_result ← new_value (VKind.store initValue result)
  let lhs ← lhsGen
  let branchOp :=
    match op with
    | ShortCircuitingOp.or => BinOp.eq
    | ShortCircuitingOp.and => BinOp.notEq
  let lhs_op_zero ← new_value (VKind.binary branchOp lhs zero)
  let true_bb ← add_bb
  let end_bb ← add_bb
  let branch ← new_value (VKind.branch lhs_op_zero true_bb end_bb)
  let rhs ← rhsGen
  let rhs_neq_zero ← new_value (VKind.binary BinOp.notEq rhs zero)
  let rhs_store ← new_value (VKind.store rhs result)
  let jump ← new_value (VKind.jump end_bb)
  let load ← new_value (VKind.load result)
  add_inst result
  add_inst init_result
  add_inst lhs_op_zero
  switch_bb branch (some true_bb)
  add_inst rhs_neq_zero
  add_inst rhs_store
  switch_bb jump (some end_bb)
  add_inst load
  pure load

mutual
/-- Model of `LOrExp::generate_value`: the `And` wrapper goes through
`generate` (constant folding first), `Or` lowers with the
short-circuiting scheme. -/
def generate_value_lor (t : SymbolTable) (e : LOrExp) : EM Nat :=
  match e with
  | LOrExp.and e => generate_folded (evalLAnd e t) (generate_value_land t e)
  | LOrExp.or l r =>
    generate_with_short_circuiting ShortCircuitingOp.or
      (generate_value_lor t l) (generate_value_land t r)

/-- Model of `LAndExp::generate_value`. -/
def generate_value_land (t : SymbolTable) (e : LAndExp) : EM Nat :=
  match e with
  | LAndExp.eq e => generate_folded (evalEq e t) (generate_value_eq t e)
  | LAndExp.and l r =>
    generate_with_short_circuiting ShortCircuitingOp.and
      (generate_value_land t l) (generate_value_eq t r)

/-- Model of `EqExp::generate_value`: operands through `generate`, one
binary instruction per operator node. -/
def generate_value_eq (t : SymbolTable) (e : EqExp) : EM Nat :=
  match e with
  | EqExp.rel e => generate_folded (evalRel e t) (generate_value_rel t e)
  | EqExp.eq l op r => do
    let lhs ← generate_folded (evalEq l t) (generate_value_eq t l)
    let rhs ← generate_folded (evalRel r t) (generate_value_rel t r)
    let o :=
      match op with
      | EqOp.equal => BinOp.eq
      | EqOp.notEqual => BinOp.notEq
    let result ← new_value (VKind.binary o lhs rhs)
    add_inst result
    pure result

/-- Model of `RelExp::generate_value`. -/
def generate_value_rel (t : SymbolTable) (e : RelExp) : EM Nat :=
  match e with
  | RelExp.add e => generate_folded (evalAdd e t) (generate_value_add t e)
  | RelExp.rel l op r => do
    let lhs ← generate_folded (evalRel l t) (generate_value_rel t l)
    let rhs ← generate_folded (evalAdd r t) (generate_value_add t r)
    let o :=
      match op with
      | RelOp.less => BinOp.lt
      | RelOp.lessEqual => BinOp.le
      | RelOp.greater => BinOp.gt
      | RelOp.greaterEqual => BinOp.ge
    let result ← new_value (VKind.binary o lhs rhs)
    add_inst result
    pure result

/-- Model of `AddExp::generate_value`. -/
def generate_value_add (t : SymbolTable) (e : AddExp) : EM Nat :=
  match e with
  | AddExp.mul e => generate_folded (evalMul e t) (generate_value_mul t e)
  | AddExp.add l op r => do
    let lhs ← generate_folded (evalAdd l t) (generate_value_add t l)
    let rhs ← generate_folded (evalMul r t) (generate_value_mul t r)
    let o :=
      match op with
      | AddOp.plus => BinOp.add
      | AddOp.minus => BinOp.sub
    let result ← new_value (VKind.binary o lhs rhs)
    add_inst result
    pure result

/-- Model of `MulExp::generate_value`. -/
def generate_value_mul (t : SymbolTable) (e : MulExp) : EM Nat :=
  match e with
  | MulExp.unary e => generate_folded (evalUnary e t) (generate_value_unary t e)
  | MulExp.mul l op r => do
    let lhs ← generate_folded (evalMul l t) (generate_value_mul t l)
    let rhs ← generate_folded (evalUnary r t) (generate_value_unary t r)
    let o :=
      match op with
      | MulOp.multiply => BinOp.mul
      | MulOp.divide => BinOp.div
      | MulOp.modulo => BinOp.mod
    let result ← new_value (VKind.binary o lhs rhs)
    add_inst result
    pure result

/-- Model of `UnaryExp::generate_value`: unary plus is the identity,
unary minus lowers as `0 - x`, logical not lowers as `x == 0`; the
`Primary` wrapper goes to `generate_value` directly, the operand of a
unary operator goes through `generate`. -/
def generate_value_unary (t : SymbolTable) (e : UnaryExp) : EM Nat :=
  match e with
  | UnaryExp.primary e => generate_value_primary t e
  | UnaryExp.op op e =>
    match op with
    | UnaryOp.positive =>
      generate_folded (evalUnary e t) (generate_value_unary t e)
    | UnaryOp.negative => do
      let value ← generate_folded (evalUnary e t) (generate_value_unary t e)
      let zero ← new_value (VKind.integer 0)
      let result ← new_value (VKind.binary BinOp.sub zero value)
      add_inst result
      pure result
    | UnaryOp.not => do
      let value ← generate_folded (evalUnary e t) (generate_value_unary t e)
      let zero ← new_value (VKind.integer 0)
      let result ← new_value (VKind.binary BinOp.eq value zero)
      add_inst result
      pure result

/-- Model of `PrimaryExp::generate_value`: a parenthesized expression
goes through `generate`, a literal becomes an integer immediate, a
left value is resolved through the symbol table. -/
def generate_value_primary (t : SymbolTable) (e : PrimaryExp) : EM Nat :=
  match e with
  | PrimaryExp.paren e => generate_folded (evalLOr e t) (generate_value_lor t e)
  | PrimaryExp.num n => new_value (VKind.integer n)
  | PrimaryExp.lval l => generate_value_lval t l
end

/-- Model of `expr::generate` at the top expression level (`Exp` is
`LOrExp`): attempt compile-time evaluation first; on success,
materialize an integer immediate; otherwise lower at runtime. -/
def generate (t : SymbolTable) (e : LOrExp) : EM Nat :=
  generate_folded (evalLOr e t) (generate_value_lor t e)

/-! ## Statement AST and lowering (stmt.rs)

The statement-lowering source handles the `Assign`, `Exp`, `Block` and
`Return` statement forms (its `match` has no arms for `If`, `While`,
`Break`, `Continue`); only those four are modelled. -/

/-- Initializers of variable definitions (`InitVal::Simple`). -/
inductive InitVal where
  | simple (e : LOrExp)

/-- One constant definition: `const int ident = init_val`. -/
structure ConstDef where
  ident : String
  init_val : LOrExp

/-- One variable definition with an optional initializer. -/
structure VarDef where
  ident : String
  init_val : Option InitVal

/-- A constant declaration is a list of constant definitions. -/
abbrev ConstDecl := List ConstDef

/-- A variable declaration is a list of variable definitions. -/
abbrev VarDecl := List VarDef

/-- Local declarations. -/
inductive Decl where
  | const (d : ConstDecl)
  | var (d : VarDecl)

mutual
/-- Statements, the four forms lowered by `stmt.rs`. -/
inductive Stmt where
  | assign (l : LVal) (e : LOrExp)
  | exp (e : Option LOrExp)
  | block (b : List BlockItem)
  | ret (e : LOrExp)

/-- Items of a syntactic block: declarations or statements. -/
inductive BlockItem where
  | decl (d : Decl)
  | stmt (s : Stmt)
end

/-- Full `GenerateContext` state for statement lowering: the IR state
plus the symbol table (`stmt.rs` both reads and mutates the table). -/
structure GenState where
  ir : IrState
  symbol : SymbolTable
deriving DecidableEq

/-- Statement-lowering monad, same error/state discipline as `EM`. -/
def SM (α : Type) : Type := GenState → Except Err α × GenState

/-- Monadic return for `SM`. -/
def SM.pure {α : Type} (a : α) : SM α := fun s => (Except.ok a, s)

/-- Monadic bind for `SM`: errors propagate with the state reached so
far, mirroring the `?` operator. -/
def SM.bind {α β : Type} (x : SM α) (f : α → SM β) : SM β := fun s =>
  match x s with
  | (Except.ok a, s1) => f a s1
  | (Except.error e, s1) => (Except.error e, s1)

instance : Monad SM where
  pure := SM.pure
  bind := SM.bind

/-- Lift an IR-only computation into the statement monad; the symbol
table is untouched. -/
def liftE {α : Type} (m : EM α) : SM α := fun s =>
  let r := m s.ir
  (r.1, { s with ir := r.2 })

/-- Lift an expression-lowering computation (which reads the symbol
table but never writes it) into the statement monad. -/
def liftExpr {α : Type} (f : SymbolTable → EM α) : SM α := fun s =>
  let r := f s.symbol s.ir
  (r.1, { s with ir := r.2 })

/-- Fail with a `CompileError` message. -/
def throwErr {α : Type} (msg : String) : SM α := fun s =>
  (Except.error (Err.compileError msg), s)

/-- Model of `context.symbol.insert(...)` as a statement-monad action
returning the success flag. -/
def insertSymbol (name : String) (sym : Symbol) : SM Bool := fun s =>
  let r := s.symbol.insert name sym
  (Except.ok r.1, { s with symbol := r.2 })

/-- Model of `context.symbol.push()`. -/
def pushScope : SM Unit := fun s =>
  (Except.ok (), { s with symbol := s.symbol.push })

/-- Model of `context.symbol.pop()`. -/
def popScope : SM Unit := fun s =>
  (Except.ok (), { s with symbol := s.symbol.pop })

/-- Model of `ConstDecl`'s per-definition body (stmt.rs:82-91): the
initializer must constant-evaluate; the name is bound to `Const`; a
duplicate in the current scope is a redefinition error.  No IR
instruction is emitted. -/
def const_def_generate (i : ConstDef) : SM Unit := fun s =>
  match evalLOr i.init_val s.symbol with
  | none =>
    (Except.error (Err.compileError
      ("Constexpr variable " ++ i.ident ++
        " must be initialized with constant expression")), s)
  | some v =>
    let r := s.symbol.insert i.ident (Symbol.const v)
    if r.1 then (Except.ok (), { s with symbol := r.2 })
    else
      (Except.error (Err.compileError
        ("Redefinition of variable " ++ i.ident)), s)

/-- Model of `GenerateStmt for ConstDecl`: the definitions in order,
stopping at the first error. -/
def const_decl_generate : ConstDecl → SM Unit
  | [] => SM.pure ()
  | i :: rest => SM.bind (const_def_generate i) fun _ => const_decl_generate rest

/-- Model of `VarDecl`'s per-definition body (stmt.rs:98-113): emit a
stack allocation; if an initializer is present, lower it and emit a
store; only then bind the name to `Var`, failing on a duplicate in the
current scope. -/
def var_def_generate (i : VarDef) : SM Unit := do
  let alloc ← liftE (new_value VKind.alloc)
  liftE (add_inst alloc)
  match i.init_val with
  | none => SM.pure ()
  | some (InitVal.simple e) => do
    let init_val ← liftExpr (fun t => generate t e)
    let store ← liftE (new_value (VKind.store init_val alloc))
    liftE (add_inst store)
  let ok ← insertSymbol i.ident (Symbol.var alloc)
  if ok then SM.pure ()
  else throwErr ("Redefinition of variable " ++ i.ident)

/-- Model of `GenerateStmt for VarDecl`: the definitions in order,
stopping at the first error. -/
def var_decl_generate : VarDecl → SM Unit
  | [] => SM.pure ()
  | i :: rest => SM.bind (var_def_generate i) fun _ => var_decl_generate rest

/-- Model of `GenerateStmt for Decl`. -/
def decl_generate (d : Decl) : SM Unit :=
  match d with
  | Decl.const c => const_decl_generate c
  | Decl.var v => var_decl_generate v

mutual
/-- Model of `GenerateStmt for Stmt` (stmt.rs:31-68): assignment,
expression statement, block (scope push, items in order, scope pop on
the success path — an error from an item propagates through `?` before
the pop), and return (lower the expression, emit a `ret`; the current
block pointer is not modified). -/
def stmt_generate (st : Stmt) : SM Unit :=
  match st with
  | Stmt.assign l e =>
    match l with
    | LVal.ident name => fun s =>
      match s.symbol.get name with
      | none =>
        (Except.error (Err.compileError ("Undefined variable: " ++ name)), s)
      | some (Symbol.const _) =>
        (Except.error (Err.compileError
          ("Cannot assign to constant: " ++ name)), s)
      | some (Symbol.var alloc) =>
        (do
          let v ← liftExpr (fun t => generate t e)
          let store ← liftE (new_value (VKind.store v alloc))
          liftE (add_inst store)) s
  | Stmt.exp e =>
    match e with
    | none => SM.pure ()
    | some e => do
      let _ ← liftExpr (fun t => generate t e)
      SM.pure ()
  | Stmt.block b => do
    pushScope
    block_items_generate b
    popScope
  | Stmt.ret e => do
    let ret_val ← liftExpr (fun t => generate t e)
    let r ← liftE (new_value (VKind.ret (some ret_val)))
    liftE (add_inst r)

/-- Model of `stmt::generate` on one block item. -/
def item_generate (it : BlockItem) : SM Unit :=
  match it with
  | BlockItem.decl d => decl_generate d
  | BlockItem.stmt st => stmt_generate st

/-- The item loop of a block body, stopping at the first error. -/
def block_items_generate (items : List BlockItem) : SM Unit :=
  match items with
  | [] => SM.pure ()
  | i :: rest => SM.bind (item_generate i) fun _ => block_items_generate rest
end

/-! ## Implicit return insertion (ir.rs `add_extra_ret`) -/

/-- Return types of functions as distinguished by `add_extra_ret`
(`Type::is_i32` on the function's return type). -/
inductive IrType where
  | i32
  | unit
deriving DecidableEq

/-- A lowered function as inspected by `add_extra_ret`: its DFG, its
basic blocks and its return type. -/
structure FunctionData where
  dfg : List VKind
  blocks : List (List Nat)
  retTy : IrType
deriving DecidableEq

/-- Terminator test used by `add_extra_ret` (ir.rs:239-242): return,
jump or branch. -/
def isTerminator (k : VKind) : Bool :=
  match k with
  | VKind.ret _ => true
  | VKind.jump _ => true
  | VKind.branch _ _ _ => true
  | _ => false

/-- Condition under which `add_extra_ret` schedules a block for a
synthesized return (ir.rs:236-248): its instruction list is empty, or
its last instruction is not a terminator. -/
def bbNeedsRet (dfg : List VKind) (insts : List Nat) : Bool :=
  match insts.getLast? with
  | none => true
  | some i => !(isTerminator (dfg.getD i (VKind.integer 0)))

/-- One mutation step of `add_extra_ret` (ir.rs:250-264): synthesize
`ret 0` for an `i32`-returning function, a bare `ret` otherwise, and
push it at the end of the block.  The pushed id is fresh, so the
`push_key_back(...).unwrap()` of the source cannot fail. -/
def add_ret_to (fd : FunctionData) (b : Nat) : FunctionData :=
  if fd.retTy = IrType.i32 then
    let retval := fd.dfg.length
    { fd with
      dfg := fd.dfg ++ [VKind.integer 0, VKind.ret (some retval)],
      blocks := fd.blocks.set b (fd.blocks.getD b [] ++ [fd.dfg.length + 1]) }
  else
    { fd with
      dfg := fd.dfg ++ [VKind.ret none],
      blocks := fd.blocks.set b (fd.blocks.getD b [] ++ [fd.dfg.length]) }

/-- Model of `add_extra_ret` (ir.rs:234-265): first collect every block
that is empty or does not end in a terminator, then append a
synthesized return to each collected block. -/
def add_extra_ret (fd : FunctionData) : FunctionData :=
  let need_ret_bbs := (List.range fd.blocks.length).filter
    (fun b => bbNeedsRet fd.dfg (fd.blocks.getD b []))
  need_ret_bbs.foldl add_ret_to fd

/-! ## Well-formedness predicates used as hypotheses -/

/-- Well-formed IR state: every instruction id stored in a block refers
to an existing DFG value.  Every state reachable from an empty function
satisfies this, since value ids are handed out by `new_value`. -/
def WFIr (s : IrState) : Prop :=
  ∀ blk ∈ s.blocks, ∀ i ∈ blk, i < s.dfg.length

instance (s : IrState) : Decidable (WFIr s) := by
  unfold WFIr; infer_instance

/-- Bound check on the allocation id carried by a `Var` symbol
(constants carry none). -/
def symbolVarLt (sym : Symbol) (n : Nat) : Bool :=
  match sym with
  | Symbol.const _ => true
  | Symbol.var a => a < n

/-- Well-formed symbol table relative to an IR state: every `Var`
symbol references an existing DFG value (its allocation). -/
def WFSym (t : SymbolTable) (s : IrState) : Prop :=
  ∀ sc ∈ t.scopes, ∀ p ∈ sc, symbolVarLt (Prod.snd p) s.dfg.length = true

instance (t : SymbolTable) (s : IrState) : Decidable (WFSym t s) := by
  unfold WFSym; infer_instance

/-! ## Helper lemmas -/

/-- Unfolding lemma for the `EM` bind behind do-notation. -/
@[simp] theorem em_bind_eq {α β : Type} (x : EM α) (f : α → EM β) :
    x >>= f = EM.bind x f := rfl

/-- Unfolding lemma for the `EM` pure behind do-notation. -/
@[simp] theorem em_pure_eq {α : Type} (a : α) : (pure a : EM α) = EM.pure a := rfl

/-- Unfolding lemma for the `SM` bind behind do-notation. -/
@[simp] theorem sm_bind_eq {α β : Type} (x : SM α) (f : α → SM β) :
    x >>= f = SM.bind x f := rfl

/-- Unfolding lemma for the `SM` pure behind do-notation. -/
@[simp] theorem sm_pure_eq {α : Type} (a : α) : (pure a : SM α) = SM.pure a := rfl

/-- Applied form of `EM` pure as it occurs in goals. -/
@[simp] theorem em_pure_apply {α : Type} (a : α) (s : IrState) :
    (@Pure.pure EM (@Applicative.toPure EM (@Monad.toApplicative EM instMonadEM))
      α a) s = (Except.ok a, s) := rfl

/-- Applied form of `SM` pure as it occurs in goals. -/
@[simp] theorem sm_pure_apply {α : Type} (a : α) (s : GenState) :
    (@Pure.pure SM (@Applicative.toPure SM (@Monad.toApplicative SM instMonadSM))
      α a) s = (Except.ok a, s) := rfl

/-- Reading back an in-range updated entry. -/
theorem getD_set_self {α : Type} (l : List α) (b : Nat) (x : α) (d : α)
    (hb : b < l.length) : (l.set b x).getD b d = x := by
  rw [List.getD_eq_getElem _ _ (by simpa using hb)]
  exact List.getElem_set_self _

/-- Reading back an in-range updated entry, optional-index form. -/
theorem getElemD_set_self {α : Type} (l : List α) (b : Nat) (x : α) (d : α)
    (hb : b < l.length) : (l.set b x)[b]?.getD d = x := by
  have := getD_set_self l b x d hb
  simpa only [List.getD, List.get?_eq_getElem?] using this

/-- Updating one entry leaves the others unchanged, optional-index
form. -/
theorem getElemD_set_ne {α : Type} (l : List α) (b b' : Nat) (x : α) (d : α)
    (h : b ≠ b') : (l.set b x)[b']?.getD d = l[b']?.getD d := by
  rw [List.getElem?_set_ne h]

/-- Updating one entry leaves the others unchanged. -/
theorem getD_set_ne {α : Type} (l : List α) (b b' : Nat) (x : α) (d : α)
    (h : b ≠ b') : (l.set b x).getD b' d = l.getD b' d := by
  simp [List.getD, List.getElem?_set_ne h]

/-- Instruction ids at or beyond the DFG length are absent from every
block of a well-formed IR state. -/
theorem fresh_not_mem_block {s : IrState} (h : WFIr s) (b : Nat) {i : Nat}
    (hi : s.dfg.length ≤ i) : i ∉ s.blocks.getD b [] := by
  intro hmem
  by_cases hb : b < s.blocks.length
  · rw [List.getD_eq_getElem _ _ hb] at hmem
    exact absurd (h _ (s.blocks.getElem_mem hb) _ hmem) (by omega)
  · rw [List.getD_eq_default _ _ (by omega)] at hmem
    exact (List.not_mem_nil i) hmem

/-- A successful single-scope lookup exhibits a binding pair of that
scope. -/
theorem scopeFind_mem {sc : Scope} {name : String} {sym : Symbol}
    (h : scopeFind sc name = some sym) : ∃ p ∈ sc, Prod.snd p = sym := by
  induction sc with
  | nil => simp [scopeFind] at h
  | cons p rest ih =>
    rw [scopeFind] at h
    split at h
    · exact ⟨p, List.mem_cons_self .., by injection h⟩
    · obtain ⟨q, hq, hs⟩ := ih h
      exact ⟨q, List.mem_cons_of_mem _ hq, hs⟩

/-- A successful scope-stack lookup exhibits a binding pair of one of
the scopes. -/
theorem findInScopes_mem : ∀ (scopes : List Scope) (name : String) (sym : Symbol),
    findInScopes scopes name = some sym →
    ∃ sc ∈ scopes, ∃ p ∈ sc, Prod.snd p = sym
  | [], _, _, h => by simp [findInScopes] at h
  | sc :: rest, name, sym, h => by
    rw [findInScopes] at h
    cases heq : scopeFind sc name with
    | some s2 =>
      rw [heq] at h
      obtain ⟨p, hp, hs⟩ := scopeFind_mem heq
      exact ⟨sc, List.mem_cons_self .., p, hp, by injection h with h2; rw [hs, h2]⟩
    | none =>
      rw [heq] at h
      obtain ⟨sc2, hsc2, hp⟩ := findInScopes_mem rest name sym h
      exact ⟨sc2, List.mem_cons_of_mem _ hsc2, hp⟩

/-- A successful symbol-table lookup exhibits the binding. -/
theorem get_mem {t : SymbolTable} {name : String} {sym : Symbol}
    (h : t.get name = some sym) :
    ∃ sc ∈ t.scopes, ∃ p ∈ sc, Prod.snd p = sym :=
  findInScopes_mem t.scopes name sym h

/-- In a well-formed table every `Var` binding found by lookup points
below the DFG length. -/
theorem get_var_lt {t : SymbolTable} {s : IrState} {name : String} {a : Nat}
    (hws : WFSym t s) (h : t.get name = some (Symbol.var a)) :
    a < s.dfg.length := by
  obtain ⟨sc, hsc, p, hp, hps⟩ := get_mem h
  have := hws sc hsc p hp
  rw [hps] at this
  simpa [symbolVarLt] using this

/-! ## Concrete fixtures used by counterexamples and witnesses -/

/-- An integer-literal expression wrapped down the precedence chain. -/
def litExp (n : Int) : LOrExp :=
  LOrExp.and (LAndExp.eq (EqExp.rel (RelExp.add (AddExp.mul (MulExp.unary
    (UnaryExp.primary (PrimaryExp.num n)))))))

/-- An identifier expression at the logical-and level. -/
def identLAnd (name : String) : LAndExp :=
  LAndExp.eq (EqExp.rel (RelExp.add (AddExp.mul (MulExp.unary
    (UnaryExp.primary (PrimaryExp.lval (LVal.ident name)))))))

/-- An identifier expression at the top level. -/
def identExp (name : String) : LOrExp := LOrExp.and (identLAnd name)

/-- Symbol table binding `a` and `b` to the stack slots 0 and 1. -/
def tAB : SymbolTable := ⟨[[("a", Symbol.var 0), ("b", Symbol.var 1)]]⟩

/-- IR state holding the two allocations for `a` and `b`, one open
(entry) block and nothing else. -/
def irAB : IrState := ⟨[VKind.alloc, VKind.alloc], [[]], some 0⟩

/-- The expression `a || b`. -/
def orAB : LOrExp := LOrExp.or (identExp "a") (identLAnd "b")

/-- Minimal statement-lowering state: empty DFG, one open empty block,
one empty scope. -/
def s0gen : GenState := ⟨⟨[], [[]], some 0⟩, ⟨[[]]⟩⟩

/-! ## Claims -/

/-- C1: the claim states that for `a || b` the right operand's
instructions are emitted only into the dedicated right-operand block.
The code violates this: `rhs.generate_value(context)` runs before
`switch_bb` moves the context into the right-operand block, so the
right operand's instructions land in the block preceding the
conditional branch and execute unconditionally.  Lowering `a || b`
(with `a`, `b` runtime variables, starting from one open block 0)
produces value 9 = the load of `b`'s slot, placed in block 0 — the
block that ends in the conditional branch (value 8) — and not in the
right-operand block 1, which receives only the normalization compare,
the store and the jump. -/
theorem lor_rhs_instructions_in_left_block :
    (generate tAB orAB irAB).2.dfg.getD 9 (VKind.integer 0) = VKind.load 1 ∧
    9 ∈ (generate tAB orAB irAB).2.blocks.getD 0 [] ∧
    9 ∉ (generate tAB orAB irAB).2.blocks.getD 1 [] ∧
    (generate tAB orAB irAB).2.blocks.getD 0 [] = [6, 9, 4, 5, 7, 8] ∧
    (generate tAB orAB irAB).2.dfg.getD 8 (VKind.integer 0) = VKind.branch 7 1 2 ∧
    (generate tAB orAB irAB).2.blocks.getD 1 [] = [10, 11, 12] := by
  decide

/-- C2: the claim states that the value stored into the result slot in
the right-operand block is the 0/1 normalization `rhs != 0`.  The code
computes that normalization (value 10) and emits it, but the store
(value 11) stores the raw right-operand value 9 instead; the jump to
the join block and the join-block load of the slot do match the claim.
Shown on `a || b` from `irAB`: block 1 is `[10, 11, 12]` with 10 the
NotEq compare, 11 a store of the RAW value 9 into slot 4, 12 the jump
to block 2, whose load of slot 4 (value 13) is the expression value. -/
theorem lor_store_uses_raw_rhs :
    (generate tAB orAB irAB).2.blocks.getD 1 [] = [10, 11, 12] ∧
    (generate tAB orAB irAB).2.dfg.getD 10 (VKind.integer 0)
      = VKind.binary BinOp.notEq 9 2 ∧
    (generate tAB orAB irAB).2.dfg.getD 11 (VKind.integer 0)
      = VKind.store 9 4 ∧
    (generate tAB orAB irAB).2.dfg.getD 12 (VKind.integer 0) = VKind.jump 2 ∧
    (generate tAB orAB irAB).2.blocks.getD 2 [] = [13] ∧
    (generate tAB orAB irAB).2.dfg.getD 13 (VKind.integer 0) = VKind.load 4 ∧
    (generate tAB orAB irAB).1 = Except.ok 13 := by
  decide

/-- C5: `add_inst` appends the value to the current block when one is
open (the fresh value is not already present), and silently drops the
instruction returning success — never an error — when no block is
open. -/
theorem add_inst_appends_or_drops (s : IrState) (v : Nat) :
    (s.bb = none → add_inst v s = (Except.ok (), s)) ∧
    (∀ b, s.bb = some b → v ∉ s.blocks.getD b [] →
      add_inst v s =
        (Except.ok (),
          { s with blocks := s.blocks.set b (s.blocks.getD b [] ++ [v]) })) := by
  constructor
  · intro h
    unfold add_inst
    rw [h]
  · intro b hb hmem
    unfold add_inst
    rw [hb]
    simp only [List.getD, List.get?_eq_getElem?] at hmem
    simp [hmem]

/-- Witness for C5 at concrete inputs: a closed block drops the
instruction and succeeds; an open block receives it. -/
theorem add_inst_appends_or_drops_witness :
    add_inst 0 ⟨[], [], none⟩ = (Except.ok (), ⟨[], [], none⟩) ∧
    add_inst 0 ⟨[VKind.alloc], [[]], some 0⟩ =
      (Except.ok (), ⟨[VKind.alloc], [[0]], some 0⟩) := by
  refine ⟨(add_inst_appends_or_drops ⟨[], [], none⟩ 0).1 rfl, ?_⟩
  have h := (add_inst_appends_or_drops ⟨[VKind.alloc], [[]], some 0⟩ 0).2 0 rfl
    (by decide)
  simpa using h

/-- C7: whenever the constant evaluator succeeds on an expression, the
lowering returns a fresh integer immediate carrying exactly the
evaluator's result and emits zero runtime instructions — the block
list and current block are untouched, only the DFG gains the constant
definition. -/
theorem generate_consteval_immediate (t : SymbolTable) (e : LOrExp)
    (s : IrState) (v : Int) (h : evalLOr e t = some v) :
    generate t e s =
      (Except.ok s.dfg.length, { s with dfg := s.dfg ++ [VKind.integer v] }) := by
  unfold generate
  rw [h]
  rfl

/-- Witness for C7: the literal expression `3` constant-folds and
lowers to the immediate 3 with no instruction emitted. -/
theorem generate_consteval_immediate_witness :
    generate ⟨[[]]⟩ (litExp 3) ⟨[], [[]], some 0⟩ =
      (Except.ok 0, ⟨[VKind.integer 3], [[]], some 0⟩) :=
  generate_consteval_immediate ⟨[[]]⟩ (litExp 3) ⟨[], [[]], some 0⟩ 3 (by decide)

/-- C8: lowering an identifier use resolves it through the symbol
table: an unbound name errors with the undefined-variable message
carrying the identifier; a `Const` binding yields an integer immediate
and emits no load (blocks untouched, only the constant enters the
DFG); a `Var` binding emits exactly one load from the bound slot into
the current block. -/
theorem lval_lowering_by_symbol (t : SymbolTable) (name : String) (s : IrState) :
    (t.get name = none →
      generate_value_lval t (LVal.ident name) s =
        (Except.error (Err.compileError ("Undefined variable: " ++ name)), s)) ∧
    (∀ v, t.get name = some (Symbol.const v) →
      generate_value_lval t (LVal.ident name) s =
        (Except.ok s.dfg.length, { s with dfg := s.dfg ++ [VKind.integer v] })) ∧
    (∀ a b, t.get name = some (Symbol.var a) → s.bb = some b → WFIr s →
      generate_value_lval t (LVal.ident name) s =
        (Except.ok s.dfg.length,
          { s with dfg := s.dfg ++ [VKind.load a],
                   blocks := s.blocks.set b (s.blocks.getD b [] ++ [s.dfg.length]) })) := by
  refine ⟨?_, ?_, ?_⟩
  · intro h
    simp only [generate_value_lval]
    rw [h]
  · intro v h
    simp only [generate_value_lval]
    rw [h]
    rfl
  · intro a b h hb hwf
    have hfresh := fresh_not_mem_block hwf b (Nat.le_refl s.dfg.length)
    simp only [List.getD, List.get?_eq_getElem?] at hfresh
    simp only [generate_value_lval]
    rw [h]
    simp [EM.bind, EM.pure, new_value, add_inst, hb, hfresh, List.getD,
      List.get?_eq_getElem?]

/-- Witness for C8 at concrete inputs: unbound `x` errors; constant `c`
folds to its immediate with no load; variable `a` loads from slot 0. -/
theorem lval_lowering_by_symbol_witness :
    generate_value_lval ⟨[[]]⟩ (LVal.ident "x") ⟨[], [[]], some 0⟩ =
      (Except.error (Err.compileError "Undefined variable: x"),
        ⟨[], [[]], some 0⟩) ∧
    generate_value_lval ⟨[[("c", Symbol.const 7)]]⟩ (LVal.ident "c")
        ⟨[], [[]], some 0⟩ =
      (Except.ok 0, ⟨[VKind.integer 7], [[]], some 0⟩) ∧
    generate_value_lval tAB (LVal.ident "a") irAB =
      (Except.ok 2, ⟨[VKind.alloc, VKind.alloc, VKind.load 0], [[2]], some 0⟩) := by
  refine ⟨?_, ?_, ?_⟩
  · exact (lval_lowering_by_symbol ⟨[[]]⟩ "x" ⟨[], [[]], some 0⟩).1 (by decide)
  · have h := (lval_lowering_by_symbol ⟨[[("c", Symbol.const 7)]]⟩ "c"
      ⟨[], [[]], some 0⟩).2.1 7 (by decide)
    simpa using h
  · have h := (lval_lowering_by_symbol tAB "a" irAB).2.2 0 0 (by decide) rfl
      (by decide)
    simpa [irAB] using h

/-- C3 counterexample: the claim states that after lowering a `return`
the current-block field becomes `None` and later statements'
instructions are dropped.  In fact lowering `return 5;` from the
minimal open-block state leaves the current block open (`bb` is still
block 0), and lowering `return 5; return 7;` appends both `ret`
instructions (ids 1 and 3) into block 0 — the second statement's
instructions are appended after the return, not dropped. -/
theorem return_does_not_close_block_cex :
    (stmt_generate (Stmt.ret (litExp 5)) s0gen).2.ir.bb = some 0 ∧
    (stmt_generate (Stmt.ret (litExp 5)) s0gen).2.ir.bb ≠ none ∧
    (block_items_generate
        [BlockItem.stmt (Stmt.ret (litExp 5)), BlockItem.stmt (Stmt.ret (litExp 7))]
        s0gen).2.ir.blocks.getD 0 [] = [1, 3] ∧
    (block_items_generate
        [BlockItem.stmt (Stmt.ret (litExp 5)), BlockItem.stmt (Stmt.ret (litExp 7))]
        s0gen).2.ir.dfg.getD 1 (VKind.integer 0) = VKind.ret (some 0) ∧
    (block_items_generate
        [BlockItem.stmt (Stmt.ret (litExp 5)), BlockItem.stmt (Stmt.ret (litExp 7))]
        s0gen).2.ir.dfg.getD 3 (VKind.integer 0) = VKind.ret (some 2) := by
  decide

/-- C3 (amended): lowering a `return` statement lowers the return
expression, emits a `ret` terminator into the current block, and
leaves the current-block field unchanged — the block is not closed, so
instructions of subsequent statements in the same syntactic block are
appended after the return rather than dropped. -/
theorem return_emits_ret_into_open_block (s : GenState) (n : Int) (b : Nat)
    (hbb : s.ir.bb = some b) (hwf : WFIr s.ir) :
    stmt_generate (Stmt.ret (litExp n)) s =
      (Except.ok (),
        { s with ir := { s.ir with
            dfg := s.ir.dfg ++ [VKind.integer n, VKind.ret (some s.ir.dfg.length)],
            blocks := s.ir.blocks.set b
              (s.ir.blocks.getD b [] ++ [s.ir.dfg.length + 1]) } }) := by
  have hfresh := fresh_not_mem_block hwf b
    (Nat.le_succ s.ir.dfg.length)
  simp only [List.getD, List.get?_eq_getElem?] at hfresh
  unfold stmt_generate
  simp [SM.bind, SM.pure, liftExpr, liftE, generate, generate_folded, litExp,
    evalLOr, evalLAnd, evalEq, evalRel, evalAdd, evalMul, evalUnary, evalPrimary,
    EM.bind, EM.pure, new_value, add_inst, hbb, hfresh, List.getD,
    List.get?_eq_getElem?]

/-- Witness for the amended C3 theorem at the minimal state. -/
theorem return_emits_ret_into_open_block_witness :
    stmt_generate (Stmt.ret (litExp 5)) s0gen =
      (Except.ok (),
        ⟨⟨[VKind.integer 5, VKind.ret (some 0)], [[1]], some 0⟩, ⟨[[]]⟩⟩) := by
  have h := return_emits_ret_into_open_block s0gen 5 0 rfl (by decide)
  simpa [s0gen] using h

/-- C4 counterexample: the claim states the scope pushed by a block
statement is popped on every path, including when an item errors
mid-block.  Lowering `{ x; }` with `x` unbound from a state with one
scope fails with the undefined-variable error, and the resulting
symbol table still holds two scopes: the pushed scope was not popped
on the error path (the `?` operator returns before the pop runs). -/
theorem block_scope_leak_on_error_cex :
    (stmt_generate (Stmt.block [BlockItem.stmt (Stmt.exp (some (identExp "x")))])
        s0gen).1 = Except.error (Err.compileError "Undefined variable: x") ∧
    (stmt_generate (Stmt.block [BlockItem.stmt (Stmt.exp (some (identExp "x")))])
        s0gen).2.symbol.scopes.length = 2 ∧
    s0gen.symbol.scopes.length = 1 := by
  decide

/-- C9: in a variable declaration the initializer is lowered before
the declared name is inserted into the symbol table, so a use of the
declared name inside its own initializer resolves against the
pre-declaration table: if the name is unbound anywhere, lowering fails
with the undefined-variable error (even though the name is about to be
declared); if an outer binding is a constant `c`, the emitted store
stores the immediate `c`; if an outer binding is a variable slot `a`,
the emitted load reads slot `a`, which is distinct from the freshly
allocated slot of the declaration itself. -/
theorem var_decl_initializer_before_insert (s : GenState) (name : String)
    (b : Nat) (hbb : s.ir.bb = some b) (hblen : b < s.ir.blocks.length)
    (hwf : WFIr s.ir) :
    (s.symbol.get name = none →
      var_def_generate ⟨name, some (InitVal.simple (identExp name))⟩ s =
        (Except.error (Err.compileError ("Undefined variable: " ++ name)),
          ⟨{ s.ir with
              dfg := s.ir.dfg ++ [VKind.alloc],
              blocks := s.ir.blocks.set b
                (s.ir.blocks.getD b [] ++ [s.ir.dfg.length]) },
            s.symbol⟩)) ∧
    (∀ c sc rest, s.symbol.get name = some (Symbol.const c) →
      s.symbol.scopes = sc :: rest → scopeFind sc name = none →
      var_def_generate ⟨name, some (InitVal.simple (identExp name))⟩ s =
        (Except.ok (),
          ⟨{ s.ir with
              dfg := s.ir.dfg ++ [VKind.alloc, VKind.integer c,
                VKind.store (s.ir.dfg.length + 1) s.ir.dfg.length],
              blocks := s.ir.blocks.set b (s.ir.blocks.getD b [] ++
                [s.ir.dfg.length, s.ir.dfg.length + 2]) },
            ⟨((name, Symbol.var s.ir.dfg.length) :: sc) :: rest⟩⟩)) ∧
    (∀ a sc rest, WFSym s.symbol s.ir →
      s.symbol.get name = some (Symbol.var a) →
      s.symbol.scopes = sc :: rest → scopeFind sc name = none →
      a ≠ s.ir.dfg.length ∧
      var_def_generate ⟨name, some (InitVal.simple (identExp name))⟩ s =
        (Except.ok (),
          ⟨{ s.ir with
              dfg := s.ir.dfg ++ [VKind.alloc, VKind.load a,
                VKind.store (s.ir.dfg.length + 1) s.ir.dfg.length],
              blocks := s.ir.blocks.set b (s.ir.blocks.getD b [] ++
                [s.ir.dfg.length, s.ir.dfg.length + 1, s.ir.dfg.length + 2]) },
            ⟨((name, Symbol.var s.ir.dfg.length) :: sc) :: rest⟩⟩)) := by
  have hset : ∀ X : List Nat, (s.ir.blocks.set b X)[b]?.getD [] = X := by
    intro X
    have := getD_set_self s.ir.blocks b X [] hblen
    simpa only [List.getD, List.get?_eq_getElem?] using this
  have hg0 : s.ir.dfg.length ∉ s.ir.blocks[b]?.getD [] := by
    have := fresh_not_mem_block hwf b (Nat.le_refl s.ir.dfg.length)
    simpa only [List.getD, List.get?_eq_getElem?] using this
  have hg1 : s.ir.dfg.length + 1 ∉ s.ir.blocks[b]?.getD [] := by
    have := fresh_not_mem_block hwf b (Nat.le_succ s.ir.dfg.length)
    simpa only [List.getD, List.get?_eq_getElem?] using this
  have hg2 : s.ir.dfg.length + 2 ∉ s.ir.blocks[b]?.getD [] := by
    have := fresh_not_mem_block (i := s.ir.dfg.length + 2) hwf b (by omega)
    simpa only [List.getD, List.get?_eq_getElem?] using this
  have hne1 : ¬(s.ir.dfg.length + 1 = s.ir.dfg.length) := by omega
  have hne2 : ¬(s.ir.dfg.length + 2 = s.ir.dfg.length) := by omega
  have hne3 : ¬(s.ir.dfg.length + 2 = s.ir.dfg.length + 1) := by omega
  refine ⟨?_, ?_, ?_⟩
  · intro hget
    unfold var_def_generate
    simp [SM.bind, SM.pure, liftE, liftExpr, insertSymbol, throwErr, generate,
      generate_folded, EM.bind, EM.pure, new_value, add_inst,
      SymbolTable.insert, hbb, hset, hg0, hg1, hg2, hne1, hne2, hne3,
      identExp, identLAnd, evalLOr, evalLAnd, evalEq, evalRel, evalAdd,
      evalMul, evalUnary, evalPrimary, hget,
      generate_value_lor, generate_value_land, generate_value_eq,
      generate_value_rel, generate_value_add, generate_value_mul,
      generate_value_unary, generate_value_primary, generate_value_lval,
      List.getD, List.get?_eq_getElem?, List.append_assoc]
  · intro c sc rest hget hsc hfree
    unfold var_def_generate
    simp [SM.bind, SM.pure, liftE, liftExpr, insertSymbol, throwErr, generate,
      generate_folded, EM.bind, EM.pure, new_value, add_inst,
      SymbolTable.insert, hsc, hfree, hbb, hset, hg0, hg1, hg2, hne1, hne2,
      hne3, identExp, identLAnd, evalLOr, evalLAnd, evalEq, evalRel, evalAdd,
      evalMul, evalUnary, evalPrimary, hget,
      generate_value_lor, generate_value_land, generate_value_eq,
      generate_value_rel, generate_value_add, generate_value_mul,
      generate_value_unary, generate_value_primary, generate_value_lval,
      List.getD, List.get?_eq_getElem?, List.append_assoc]
  · intro a sc rest hws hget hsc hfree
    have halt := get_var_lt hws hget
    refine ⟨Nat.ne_of_lt halt, ?_⟩
    unfold var_def_generate
    simp [SM.bind, SM.pure, liftE, liftExpr, insertSymbol, throwErr, generate,
      generate_folded, EM.bind, EM.pure, new_value, add_inst,
      SymbolTable.insert, hsc, hfree, hbb, hset, hg0, hg1, hg2, hne1, hne2,
      hne3, identExp, identLAnd, evalLOr, evalLAnd, evalEq, evalRel, evalAdd,
      evalMul, evalUnary, evalPrimary, hget,
      generate_value_lor, generate_value_land, generate_value_eq,
      generate_value_rel, generate_value_add, generate_value_mul,
      generate_value_unary, generate_value_primary, generate_value_lval,
      List.getD, List.get?_eq_getElem?, List.append_assoc]

/-- Witness for C9: declaring `int x = x;` where an outer scope binds
`x` to slot 0 loads from slot 0 (not from the new slot 1) and only
then binds `x` to the new slot in the inner scope. -/
theorem var_decl_initializer_before_insert_witness :
    (0 : Nat) ≠ 1 ∧
    var_def_generate ⟨"x", some (InitVal.simple (identExp "x"))⟩
        ⟨⟨[VKind.alloc], [[]], some 0⟩, ⟨[[], [("x", Symbol.var 0)]]⟩⟩ =
      (Except.ok (),
        ⟨⟨[VKind.alloc, VKind.alloc, VKind.load 0, VKind.store 2 1],
            [[1, 2, 3]], some 0⟩,
          ⟨[[("x", Symbol.var 1)], [("x", Symbol.var 0)]]⟩⟩) := by
  have h := (var_decl_initializer_before_insert
      ⟨⟨[VKind.alloc], [[]], some 0⟩, ⟨[[], [("x", Symbol.var 0)]]⟩⟩ "x" 0
      rfl (by decide) (by decide)).2.2 0 [] [[("x", Symbol.var 0)]]
      (by decide) (by decide) rfl (by decide)
  exact ⟨h.1, by simpa using h.2⟩

/-- C10: when a variable declaration fails with a redefinition error
(the name is already bound in the innermost scope), the stack
allocation — and, when an initializer is present, its store — have
already been emitted into the current block before the error returns;
the error does not undo them (the initializer case is stated for
constant-foldable initializers, which an already-emitted store always
accompanies). -/
theorem var_decl_redefinition_after_emission (s : GenState) (name : String)
    (b : Nat) (sc : Scope) (rest : List Scope)
    (hbb : s.ir.bb = some b) (hblen : b < s.ir.blocks.length) (hwf : WFIr s.ir)
    (hsc : s.symbol.scopes = sc :: rest)
    (hdup : (scopeFind sc name).isSome = true) :
    (var_def_generate ⟨name, none⟩ s =
      (Except.error (Err.compileError ("Redefinition of variable " ++ name)),
        ⟨{ s.ir with
            dfg := s.ir.dfg ++ [VKind.alloc],
            blocks := s.ir.blocks.set b
              (s.ir.blocks.getD b [] ++ [s.ir.dfg.length]) },
          s.symbol⟩)) ∧
    (∀ e v, evalLOr e s.symbol = some v →
      var_def_generate ⟨name, some (InitVal.simple e)⟩ s =
        (Except.error (Err.compileError ("Redefinition of variable " ++ name)),
          ⟨{ s.ir with
              dfg := s.ir.dfg ++ [VKind.alloc, VKind.integer v,
                VKind.store (s.ir.dfg.length + 1) s.ir.dfg.length],
              blocks := s.ir.blocks.set b (s.ir.blocks.getD b [] ++
                [s.ir.dfg.length, s.ir.dfg.length + 2]) },
            s.symbol⟩)) := by
  have hset : ∀ X : List Nat, (s.ir.blocks.set b X)[b]?.getD [] = X := by
    intro X
    have := getD_set_self s.ir.blocks b X [] hblen
    simpa only [List.getD, List.get?_eq_getElem?] using this
  have hg0 : s.ir.dfg.length ∉ s.ir.blocks[b]?.getD [] := by
    have := fresh_not_mem_block hwf b (Nat.le_refl s.ir.dfg.length)
    simpa only [List.getD, List.get?_eq_getElem?] using this
  have hg2 : s.ir.dfg.length + 2 ∉ s.ir.blocks[b]?.getD [] := by
    have := fresh_not_mem_block (i := s.ir.dfg.length + 2) hwf b (by omega)
    simpa only [List.getD, List.get?_eq_getElem?] using this
  have hne2 : ¬(s.ir.dfg.length + 2 = s.ir.dfg.length) := by omega
  constructor
  · unfold var_def_generate
    simp [SM.bind, SM.pure, liftE, liftExpr, insertSymbol, throwErr,
      SymbolTable.insert, hsc, hdup, hbb, hset, hg0, EM.bind, EM.pure,
      new_value, add_inst, List.getD, List.get?_eq_getElem?]
  · intro e v he
    unfold var_def_generate
    simp [SM.bind, SM.pure, liftE, liftExpr, insertSymbol, throwErr, generate,
      generate_folded, he, EM.bind, EM.pure, new_value, add_inst,
      SymbolTable.insert, hsc, hdup, hbb, hset, hg0, hg2, hne2,
      List.getD, List.get?_eq_getElem?, List.append_assoc]

/-- One step of the implicit-return pass preserves the number of
blocks. -/
theorem add_ret_to_length (fd : FunctionData) (b : Nat) :
    (add_ret_to fd b).blocks.length = fd.blocks.length := by
  unfold add_ret_to
  split <;> simp

/-- One step of the implicit-return pass only appends to the DFG. -/
theorem add_ret_to_dfg_append (fd : FunctionData) (b : Nat) :
    ∃ ext, (add_ret_to fd b).dfg = fd.dfg ++ ext := by
  unfold add_ret_to
  split
  · exact ⟨_, rfl⟩
  · exact ⟨_, rfl⟩

/-- One step of the implicit-return pass leaves other blocks
unchanged. -/
theorem add_ret_to_other (fd : FunctionData) (b b' : Nat) (h : b ≠ b') :
    (add_ret_to fd b).blocks.getD b' [] = fd.blocks.getD b' [] := by
  unfold add_ret_to
  split <;> exact getD_set_ne _ _ _ _ _ h

/-- Characterization of a block the pass leaves alone: it is non-empty
and its last instruction is a terminator. -/
theorem bbNeedsRet_false_iff (dfg : List VKind) (insts : List Nat) :
    bbNeedsRet dfg insts = false ↔
      ∃ i, insts.getLast? = some i ∧
        isTerminator (dfg.getD i (VKind.integer 0)) = true := by
  unfold bbNeedsRet
  cases insts.getLast? <;> simp

/-- A terminated block stays terminated when the DFG is extended
(ids of existing values are stable under appends). -/
theorem bbNeedsRet_append (dfg ext : List VKind) (insts : List Nat)
    (h : bbNeedsRet dfg insts = false) :
    bbNeedsRet (dfg ++ ext) insts = false := by
  rw [bbNeedsRet_false_iff] at h ⊢
  obtain ⟨i, hl, ht⟩ := h
  refine ⟨i, hl, ?_⟩
  have hi : i < dfg.length := by
    by_contra hge
    rw [List.getD_eq_default _ _ (by omega)] at ht
    simp [isTerminator] at ht
  rw [List.getD_append _ _ _ _ hi]
  exact ht

/-- The step applied to a block in range makes that block terminated:
the pushed synthesized return is its new last instruction. -/
theorem add_ret_to_good (fd : FunctionData) (b : Nat)
    (hb : b < fd.blocks.length) :
    bbNeedsRet (add_ret_to fd b).dfg ((add_ret_to fd b).blocks.getD b [])
      = false := by
  rw [bbNeedsRet_false_iff]
  unfold add_ret_to
  split
  · refine ⟨fd.dfg.length + 1, ?_, ?_⟩
    · rw [getD_set_self _ _ _ _ hb]
      exact List.getLast?_concat _
    · simp only
      rw [List.getD_append_right _ _ _ _ (by omega)]
      have h1 : fd.dfg.length + 1 - fd.dfg.length = 1 := by omega
      rw [h1]
      rfl
  · refine ⟨fd.dfg.length, ?_, ?_⟩
    · rw [getD_set_self _ _ _ _ hb]
      exact List.getLast?_concat _
    · simp only
      rw [List.getD_append_right _ _ _ _ (by omega)]
      have h0 : fd.dfg.length - fd.dfg.length = 0 := by omega
      rw [h0]
      rfl

/-- The fold of steps preserves the number of blocks. -/
theorem foldl_add_ret_length (l : List Nat) (fd : FunctionData) :
    (l.foldl add_ret_to fd).blocks.length = fd.blocks.length := by
  induction l generalizing fd with
  | nil => rfl
  | cons x xs ih => rw [List.foldl_cons, ih, add_ret_to_length]

/-- The fold of steps leaves blocks outside the work list unchanged. -/
theorem foldl_add_ret_untouched (l : List Nat) (fd : FunctionData) (b : Nat)
    (hb : b ∉ l) :
    (l.foldl add_ret_to fd).blocks.getD b [] = fd.blocks.getD b [] := by
  induction l generalizing fd with
  | nil => rfl
  | cons x xs ih =>
    have hxb : x ≠ b := fun h => hb (by rw [h]; exact List.mem_cons_self ..)
    rw [List.foldl_cons, ih _ (fun h => hb (List.mem_cons_of_mem _ h)),
      add_ret_to_other _ _ _ hxb]

/-- After folding the steps over a work list that covers every
non-terminated block, every block in range is terminated. -/
theorem foldl_add_ret_good (l : List Nat) (fd : FunctionData)
    (h : ∀ b, b < fd.blocks.length → b ∉ l →
      bbNeedsRet fd.dfg (fd.blocks.getD b []) = false) :
    ∀ b, b < (l.foldl add_ret_to fd).blocks.length →
      bbNeedsRet (l.foldl add_ret_to fd).dfg
        ((l.foldl add_ret_to fd).blocks.getD b []) = false := by
  induction l generalizing fd with
  | nil =>
    intro b hb
    exact h b hb (List.not_mem_nil b)
  | cons x xs ih =>
    rw [List.foldl_cons]
    refine ih (add_ret_to fd x) ?_
    intro b hb hnx
    obtain ⟨ext, hext⟩ := add_ret_to_dfg_append fd x
    by_cases hbx : b = x
    · subst hbx
      exact add_ret_to_good fd b (by rw [add_ret_to_length] at hb; exact hb)
    · rw [add_ret_to_other _ _ _ (fun hh => hbx hh.symm), hext]
      refine bbNeedsRet_append _ _ _ ?_
      refine h b (by rw [add_ret_to_length] at hb; exact hb) ?_
      intro hmem
      rcases List.mem_cons.1 hmem with hh | hh
      · exact hbx hh
      · exact hnx hh

/-- C6: after the implicit-return pass, every basic block is non-empty
and its last instruction is a terminator (return, jump or branch);
blocks that already ended in a terminator are left exactly unchanged
(a block needing a return receives `ret 0` for an `i32`-returning
function and a bare `ret` otherwise, per `add_ret_to`). -/
theorem add_extra_ret_terminates_blocks (fd : FunctionData) (b : Nat)
    (hb : b < (add_extra_ret fd).blocks.length) :
    ((add_extra_ret fd).blocks.getD b [] ≠ [] ∧
      ∃ i, ((add_extra_ret fd).blocks.getD b []).getLast? = some i ∧
        isTerminator ((add_extra_ret fd).dfg.getD i (VKind.integer 0)) = true) ∧
    (bbNeedsRet fd.dfg (fd.blocks.getD b []) = false →
      (add_extra_ret fd).blocks.getD b [] = fd.blocks.getD b []) := by
  have hmain : bbNeedsRet (add_extra_ret fd).dfg
      ((add_extra_ret fd).blocks.getD b []) = false := by
    unfold add_extra_ret
    refine foldl_add_ret_good _ fd ?_ b ?_
    · intro b2 hb2 hnot
      cases hcase : bbNeedsRet fd.dfg (fd.blocks.getD b2 []) with
      | false => rfl
      | true =>
        exact absurd (List.mem_filter.2 ⟨List.mem_range.2 hb2, hcase⟩) hnot
    · unfold add_extra_ret at hb
      exact hb
  obtain ⟨i, hl, ht⟩ := (bbNeedsRet_false_iff _ _).1 hmain
  refine ⟨⟨?_, i, hl, ht⟩, ?_⟩
  · intro hnil
    rw [hnil] at hl
    simp at hl
  · intro hterm
    unfold add_extra_ret
    refine foldl_add_ret_untouched _ fd b ?_
    intro hmem
    have h2 := (List.mem_filter.1 hmem).2
    simp only at h2
    rw [hterm] at h2
    simp at h2

/-- Witness for C6: on a function with one terminated block `[0]` and
one empty block, the pass terminates every block and leaves the
already-terminated block unchanged. -/
theorem add_extra_ret_terminates_blocks_witness :
    ((add_extra_ret ⟨[VKind.ret none], [[0], []], IrType.i32⟩).blocks.getD 1 []
        ≠ [] ∧
      ∃ i, ((add_extra_ret ⟨[VKind.ret none], [[0], []],
          IrType.i32⟩).blocks.getD 1 []).getLast? = some i ∧
        isTerminator ((add_extra_ret ⟨[VKind.ret none], [[0], []],
          IrType.i32⟩).dfg.getD i (VKind.integer 0)) = true) ∧
    (add_extra_ret ⟨[VKind.ret none], [[0], []], IrType.i32⟩).blocks.getD 0 []
      = [0] := by
  refine ⟨(add_extra_ret_terminates_blocks
    ⟨[VKind.ret none], [[0], []], IrType.i32⟩ 1 (by decide)).1, ?_⟩
  have h := (add_extra_ret_terminates_blocks
    ⟨[VKind.ret none], [[0], []], IrType.i32⟩ 0 (by decide)).2 (by decide)
  simpa using h

/-- Witness for C10: redeclaring `x` (bound in the innermost scope)
leaves the freshly emitted allocation — and the store of `int x = 4;` —
in block 0 even though the declaration errors. -/
theorem var_decl_redefinition_after_emission_witness :
    var_def_generate ⟨"x", none⟩
        ⟨⟨[], [[]], some 0⟩, ⟨[[("x", Symbol.const 1)]]⟩⟩ =
      (Except.error (Err.compileError "Redefinition of variable x"),
        ⟨⟨[VKind.alloc], [[0]], some 0⟩, ⟨[[("x", Symbol.const 1)]]⟩⟩) ∧
    var_def_generate ⟨"x", some (InitVal.simple (litExp 4))⟩
        ⟨⟨[], [[]], some 0⟩, ⟨[[("x", Symbol.const 1)]]⟩⟩ =
      (Except.error (Err.compileError "Redefinition of variable x"),
        ⟨⟨[VKind.alloc, VKind.integer 4, VKind.store 1 0], [[0, 2]], some 0⟩,
          ⟨[[("x", Symbol.const 1)]]⟩⟩) := by
  have h := var_decl_redefinition_after_emission
    ⟨⟨[], [[]], some 0⟩, ⟨[[("x", Symbol.const 1)]]⟩⟩ "x" 0
    [("x", Symbol.const 1)] [] rfl (by decide) (by decide) rfl (by decide)
  exact ⟨by simpa using h.1, by simpa using h.2 (litExp 4) 4 (by decide)⟩

/-! ## Scope-shape lemmas for the block-statement claim -/


/-- Relation between two lowering states: the scope stack kept its
length and everything below the innermost scope. -/
def ScopesShape (s s1 : GenState) : Prop :=
  s1.symbol.scopes.length = s.symbol.scopes.length ∧
  s1.symbol.scopes.drop 1 = s.symbol.scopes.drop 1

theorem scopesShape_self (s : GenState) : ScopesShape s s := ⟨rfl, rfl⟩

theorem scopesShape_trans {s s1 s2 : GenState}
    (h1 : ScopesShape s s1) (h2 : ScopesShape s1 s2) : ScopesShape s s2 :=
  ⟨h2.1.trans h1.1, h2.2.trans h1.2⟩

theorem scopesShape_bind {α β : Type} {x : SM α} {f : α → SM β}
    (hx : ∀ s, ScopesShape s ((x s).2))
    (hf : ∀ a s, ScopesShape s ((f a s).2)) :
    ∀ s, ScopesShape s (((SM.bind x f) s).2) := by
  intro s
  unfold SM.bind
  rcases hxe : x s with ⟨r, s1⟩
  have hx1 : ScopesShape s s1 := by
    have := hx s
    rw [hxe] at this
    exact this
  cases r with
  | ok a => exact scopesShape_trans hx1 (hf a s1)
  | error e => exact hx1

theorem scopesShape_liftE {α : Type} (m : EM α) :
    ∀ s, ScopesShape s (((liftE m) s).2) := fun _ => ⟨rfl, rfl⟩

theorem scopesShape_liftExpr {α : Type} (f : SymbolTable → EM α) :
    ∀ s, ScopesShape s (((liftExpr f) s).2) := fun _ => ⟨rfl, rfl⟩

theorem scopesShape_pure {α : Type} (a : α) :
    ∀ s, ScopesShape s (((SM.pure a) s).2) := fun _ => ⟨rfl, rfl⟩

theorem scopesShape_throwErr {α : Type} (msg : String) :
    ∀ s, ScopesShape s (((throwErr (α := α) msg) s).2) := fun _ => ⟨rfl, rfl⟩

/-- Insertion touches only the innermost scope. -/
theorem insert_scopes_shape (t : SymbolTable) (name : String) (sym : Symbol) :
    ((t.insert name sym).2).scopes.length = t.scopes.length ∧
    ((t.insert name sym).2).scopes.drop 1 = t.scopes.drop 1 := by
  obtain ⟨scopes⟩ := t
  cases scopes with
  | nil => exact ⟨rfl, rfl⟩
  | cons sc rest =>
    rw [show SymbolTable.insert ⟨sc :: rest⟩ name sym =
        if (scopeFind sc name).isSome then (false, ⟨sc :: rest⟩)
        else (true, ⟨((name, sym) :: sc) :: rest⟩) from rfl]
    split
    · exact ⟨rfl, rfl⟩
    · exact ⟨by simp, by simp⟩

theorem scopesShape_insertSymbol (name : String) (sym : Symbol) :
    ∀ s, ScopesShape s (((insertSymbol name sym) s).2) := by
  intro s
  unfold insertSymbol
  exact ⟨(insert_scopes_shape s.symbol name sym).1,
    (insert_scopes_shape s.symbol name sym).2⟩

theorem scopesShape_const_def (i : ConstDef) :
    ∀ s, ScopesShape s ((const_def_generate i s).2) := by
  intro s
  unfold const_def_generate
  cases evalLOr i.init_val s.symbol with
  | none => exact ⟨rfl, rfl⟩
  | some v =>
    simp only
    split
    · exact ⟨(insert_scopes_shape s.symbol i.ident (Symbol.const v)).1,
        (insert_scopes_shape s.symbol i.ident (Symbol.const v)).2⟩
    · exact ⟨rfl, rfl⟩

theorem scopesShape_const_decl :
    ∀ (d : ConstDecl) (s : GenState), ScopesShape s ((const_decl_generate d s).2)
  | [], _ => ⟨rfl, rfl⟩
  | i :: rest, s => by
    unfold const_decl_generate
    exact scopesShape_bind (scopesShape_const_def i)
      (fun _ => scopesShape_const_decl rest) s

theorem scopesShape_var_def (i : VarDef) :
    ∀ s, ScopesShape s ((var_def_generate i s).2) := by
  obtain ⟨ident, init_val⟩ := i
  unfold var_def_generate
  simp only [sm_bind_eq, sm_pure_eq]
  cases init_val with
  | none =>
    simp only
    refine scopesShape_bind (scopesShape_liftE _) (fun alloc => ?_)
    refine scopesShape_bind (scopesShape_liftE _) (fun _ => ?_)
    refine scopesShape_bind (scopesShape_pure ()) (fun _ => ?_)
    refine scopesShape_bind (scopesShape_insertSymbol _ _) (fun ok => ?_)
    cases ok with
    | true => exact scopesShape_pure ()
    | false => exact scopesShape_throwErr _
  | some iv =>
    cases iv with
    | simple e =>
      simp only
      refine scopesShape_bind (scopesShape_liftE _) (fun alloc => ?_)
      refine scopesShape_bind (scopesShape_liftE _) (fun _ => ?_)
      refine scopesShape_bind (scopesShape_liftExpr _) (fun v => ?_)
      refine scopesShape_bind (scopesShape_liftE _) (fun st => ?_)
      refine scopesShape_bind (scopesShape_liftE _) (fun _ => ?_)
      refine scopesShape_bind (scopesShape_insertSymbol _ _) (fun ok => ?_)
      cases ok with
      | true => exact scopesShape_pure ()
      | false => exact scopesShape_throwErr _

theorem scopesShape_var_decl :
    ∀ (d : VarDecl) (s : GenState), ScopesShape s ((var_decl_generate d s).2)
  | [], _ => ⟨rfl, rfl⟩
  | i :: rest, s => by
    unfold var_decl_generate
    exact scopesShape_bind (scopesShape_var_def i)
      (fun _ => scopesShape_var_decl rest) s

theorem scopesShape_decl (d : Decl) :
    ∀ s, ScopesShape s ((decl_generate d s).2) := by
  cases d with
  | const c => exact scopesShape_const_decl c
  | var v => exact scopesShape_var_decl v



theorem scopesShape_stmt_assign (l : LVal) (e : LOrExp) :
    ∀ s, ScopesShape s ((stmt_generate (Stmt.assign l e)) s).2 := by
  obtain ⟨name⟩ := l
  intro s
  simp only [stmt_generate]
  cases hget : s.symbol.get name with
  | none => exact scopesShape_self s
  | some sym =>
    cases sym with
    | const v => exact scopesShape_self s
    | var alloc =>
      simp only [sm_bind_eq]
      exact scopesShape_bind (scopesShape_liftExpr _)
        (fun v => scopesShape_bind (scopesShape_liftE _)
          (fun st => scopesShape_liftE _)) s

theorem scopesShape_stmt_exp (e : Option LOrExp) :
    ∀ s, ScopesShape s ((stmt_generate (Stmt.exp e)) s).2 := by
  cases e with
  | none => exact fun s => scopesShape_self s
  | some e =>
    intro s
    simp only [stmt_generate, sm_bind_eq, sm_pure_eq]
    exact scopesShape_bind (scopesShape_liftExpr _)
      (fun _ => scopesShape_pure ()) s

theorem scopesShape_stmt_ret (e : LOrExp) :
    ∀ s, ScopesShape s ((stmt_generate (Stmt.ret e)) s).2 := by
  intro s
  simp only [stmt_generate, sm_bind_eq]
  exact scopesShape_bind (scopesShape_liftExpr _)
    (fun v => scopesShape_bind (scopesShape_liftE _)
      (fun r => scopesShape_liftE _)) s

mutual
theorem stmt_scopes_on_ok (st : Stmt) (s : GenState)
    (h : (stmt_generate st s).1 = Except.ok ()) :
    ScopesShape s (stmt_generate st s).2 := by
  cases st with
  | assign l e => exact scopesShape_stmt_assign l e s
  | exp e => exact scopesShape_stmt_exp e s
  | ret e => exact scopesShape_stmt_ret e s
  | block items =>
    simp only [stmt_generate, sm_bind_eq] at h ⊢
    rw [show (SM.bind pushScope fun _ =>
          SM.bind (block_items_generate items) fun _ => popScope) s
        = (SM.bind (block_items_generate items) fun _ => popScope)
            { s with symbol := s.symbol.push } from rfl] at h ⊢
    unfold SM.bind at h ⊢
    rcases hx : block_items_generate items { s with symbol := s.symbol.push }
      with ⟨r1, s1⟩
    rw [hx] at h
    cases r1 with
    | error e => simp at h
    | ok u =>
      cases u
      have hit0 := items_scopes_on_ok items { s with symbol := s.symbol.push }
        (by rw [hx])
      have hit : ScopesShape { s with symbol := s.symbol.push } s1 := by
        rw [hx] at hit0
        exact hit0
      constructor
      · show (s1.symbol.scopes.tail).length = s.symbol.scopes.length
        have h1 := hit.1
        have h3 : s1.symbol.scopes.tail.length = s1.symbol.scopes.length - 1 :=
          List.length_tail _
        simp only [SymbolTable.push, List.length_cons] at h1
        omega
      · show (s1.symbol.scopes.tail).drop 1 = s.symbol.scopes.drop 1
        have h2 : s1.symbol.scopes.drop 1 = s.symbol.scopes := by
          have := hit.2
          simpa [SymbolTable.push] using this
        rw [← List.drop_one, h2]

theorem item_scopes_on_ok (it : BlockItem) (s : GenState)
    (h : (item_generate it s).1 = Except.ok ()) :
    ScopesShape s (item_generate it s).2 := by
  cases it with
  | decl d => exact scopesShape_decl d s
  | stmt st => exact stmt_scopes_on_ok st s h

theorem items_scopes_on_ok (l : List BlockItem) (s : GenState)
    (h : (block_items_generate l s).1 = Except.ok ()) :
    ScopesShape s (block_items_generate l s).2 := by
  cases l with
  | nil => exact scopesShape_self s
  | cons i rest =>
    unfold block_items_generate at h ⊢
    unfold SM.bind at h ⊢
    rcases hx : item_generate i s with ⟨r1, s1⟩
    rw [hx] at h
    cases r1 with
    | error e => simp at h
    | ok u =>
      cases u
      have hi0 := item_scopes_on_ok i s (by rw [hx])
      have hi : ScopesShape s s1 := by
        rw [hx] at hi0
        exact hi0
      exact scopesShape_trans hi (items_scopes_on_ok rest s1 h)
end

/-- C4 (amended): a block statement pushes one scope on entry and, on
the success path, pops exactly that scope on exit, restoring the
symbol table's scope stack exactly; when lowering of an item inside
the block returns an error, the early return skips the pop and the
pushed scope remains (shown by the counterexample). -/
theorem block_scope_balanced_on_success (items : List BlockItem) (s : GenState)
    (h : (stmt_generate (Stmt.block items) s).1 = Except.ok ()) :
    (stmt_generate (Stmt.block items) s).2.symbol.scopes = s.symbol.scopes := by
  simp only [stmt_generate, sm_bind_eq] at h ⊢
  rw [show (SM.bind pushScope fun _ =>
        SM.bind (block_items_generate items) fun _ => popScope) s
      = (SM.bind (block_items_generate items) fun _ => popScope)
          { s with symbol := s.symbol.push } from rfl] at h ⊢
  unfold SM.bind at h ⊢
  rcases hx : block_items_generate items { s with symbol := s.symbol.push }
    with ⟨r1, s1⟩
  rw [hx] at h
  cases r1 with
  | error e => simp at h
  | ok u =>
    cases u
    have hit0 := items_scopes_on_ok items { s with symbol := s.symbol.push }
      (by rw [hx])
    have hit : ScopesShape { s with symbol := s.symbol.push } s1 := by
      rw [hx] at hit0
      exact hit0
    have h2 : s1.symbol.scopes.drop 1 = s.symbol.scopes := by
      have h3 := hit.2
      simpa [SymbolTable.push] using h3
    show s1.symbol.scopes.tail = s.symbol.scopes
    rw [← List.drop_one, h2]


/-- Witness for the amended C4 theorem: the successful block
`{ const int c = 1; }` restores the scope stack exactly. -/
theorem block_scope_balanced_on_success_witness :
    (stmt_generate (Stmt.block [BlockItem.decl (Decl.const [⟨"c", litExp 1⟩])])
        s0gen).1 = Except.ok () ∧
    (stmt_generate (Stmt.block [BlockItem.decl (Decl.const [⟨"c", litExp 1⟩])])
        s0gen).2.symbol.scopes = s0gen.symbol.scopes := by
  refine ⟨by decide, block_scope_balanced_on_success _ _ (by decide)⟩

end Compiler



